import Mathlib

/-!
# Verification of `makeindex.py` (miranche/byzantium)

A shallow embedding of the classification and merge engine of
`src/makeindex/makeindex.py`, together with theorems settling the frozen
claims about its specification.

Strings are modelled as `List Char` (`Str`).  Python regular-expression
matches used by the source are translated pattern-by-pattern into
deterministic Lean functions; for each the backtracking behaviour of the
original pattern collapses to the deterministic form (arguments recorded in
the doc comments).  Python exceptions (failed `.group` on a missing match,
`int()` on a non-numeric string, `.title()` on `None`) are modelled by
`Option`: a `none` result of `classifyTitle`, `getPeriod` or `addToIndex`
models the corresponding Python call raising.
-/

namespace Makeindex

abbrev Str := List Char

/-- Character class `[0-9]` of the source's regexes. -/
def isDig (c : Char) : Bool := decide (48 ≤ c.toNat ∧ c.toNat ≤ 57)

/-- Character class `[a-z]` of the source's regexes. -/
def isLow (c : Char) : Bool := decide (97 ≤ c.toNat ∧ c.toNat ≤ 122)

/-- Character class `[A-Z]`. -/
def isUp (c : Char) : Bool := decide (65 ≤ c.toNat ∧ c.toNat ≤ 90)

/-- Character class `[A-Za-z ]` of the special-episode regex (line 74). -/
def isAlphaSpace (c : Char) : Bool := isUp c || isLow c || c == ' '

/-- The separator `" – "` (space, en dash, space) appearing in the title regexes. -/
def sep3 : Str := " – ".data

/-- The literal `"Episode "` opening the episode patterns (lines 62, 67). -/
def epWord : Str := "Episode ".data

/-- Semantics of Python's `(.*)$` at the end of an anchored pattern: `.` does
not match a newline and `$` matches at the end of the string or just before a
final newline.  Returns the captured group when the tail `r` matches,
`none` when the pattern cannot reach the end of the string. -/
def dotStarEnd (r : Str) : Option Str :=
  if r.contains '\n' = false then some r
  else if r.getLast? = some '\n' && r.dropLast.contains '\n' = false then some r.dropLast
  else none

/-- The sub-pattern `([0-9]+[a-z]?) – (.*)$` shared by the regular-episode
regex (line 67) and the special-episode regex (line 74).  `[0-9]+` is greedy
and can never usefully backtrack (a shorter digit run leaves a digit where
`[a-z]` or a space is required), and if the optional letter is present but
`" – "` does not follow it, dropping the letter leaves the letter where a
space is required; so the translation is deterministic. -/
def epNumSepRest (r : Str) : Option (Str × Str) :=
  let ds := r.takeWhile isDig
  if ds = [] then none else
  match r.drop ds.length with
  | c :: r3 =>
    if isLow c then
      if sep3.isPrefixOf r3 then (dotStarEnd (r3.drop 3)).map (fun ti => (ds ++ [c], ti))
      else none
    else if sep3.isPrefixOf (c :: r3) then
      (dotStarEnd ((c :: r3).drop 3)).map (fun ti => (ds, ti))
    else none
  | [] => none

/-- Does `'Episode [0-9]+[a-z]? – '` (line 62) match at the start of `s`? -/
def epPatAt (s : Str) : Bool :=
  epWord.isPrefixOf s &&
  (let r := s.drop 8
   let ds := r.takeWhile isDig
   !ds.isEmpty &&
   (let r2 := r.drop ds.length
    sep3.isPrefixOf r2 ||
    (match r2 with
     | c :: r3 => isLow c && sep3.isPrefixOf r3
     | [] => false)))

/-- `re.search('Episode [0-9]+[a-z]? – ', s)` is truthy: the pattern matches
at some position of `s`. -/
def epFound : Str → Bool
  | [] => epPatAt []
  | c :: t => epPatAt (c :: t) || epFound t

/-- `re.search('^Episode ([0-9]+[a-z]?) – (.*)$', s)` (line 67), returning
the episode-code and title groups. -/
def podMatch (s : Str) : Option (Str × Str) :=
  if epWord.isPrefixOf s then epNumSepRest (s.drop 8) else none

/-- The tail ` Episode ([0-9]+[a-z]?) – (.*)$` of the special-episode regex
(note the leading space before `Episode`). -/
def specTail2 (r : Str) : Option (Str × Str) :=
  if " Episode ".data.isPrefixOf r then epNumSepRest (r.drop 9) else none

/-- The tail `[.]? Episode ([0-9]+[a-z]?) – (.*)$` of the special-episode
regex.  `[.]?` is greedy; when the period is present the no-period
alternative dies immediately (a period is not a space), so the translation
consumes the period whenever it is there. -/
def specTail (r : Str) : Option (Str × Str) :=
  match r with
  | c :: r2 => if c = '.' then specTail2 r2 else specTail2 (c :: r2)
  | [] => specTail2 []

/-- Backtracking over the length of the greedy group `([A-Za-z ]+)`:
try the prefix of length `k`, then `k-1`, …, down to `1`. -/
def specMatchAux : Nat → Str → Option (Str × Str × Str)
  | 0, _ => none
  | k+1, s =>
    match specTail (s.drop (k+1)) with
    | some (ep, ti) => some (s.take (k+1), ep, ti)
    | none => specMatchAux k s

/-- `re.search('^([A-Za-z ]+)[.]? Episode ([0-9]+[a-z]?) – (.*)$', s)`
(line 74), returning the series-name, episode-code and title groups.
The greedy group starts at its maximal run of `[A-Za-z ]` characters and
backtracks to shorter prefixes. -/
def specMatch (s : Str) : Option (Str × Str × Str) :=
  specMatchAux (s.takeWhile isAlphaSpace).length s

/-- Does `' Part ([0-9]+) – '` (line 84) match at the start of `s`?
Returns the captured part number. -/
def partAt (s : Str) : Option Str :=
  if " Part ".data.isPrefixOf s then
    if (s.drop 6).takeWhile isDig ≠ [] &&
        sep3.isPrefixOf ((s.drop 6).drop ((s.drop 6).takeWhile isDig).length) then
      some ((s.drop 6).takeWhile isDig)
    else none
  else none

/-- `re.search(' Part ([0-9]+) – ', s)` (line 84): leftmost match wins. -/
def partSearch : Str → Option Str
  | [] => none
  | c :: t =>
    match partAt (c :: t) with
    | some p => some p
    | none => partSearch t

/-- The condensable news headlines of lines 104-108, in source order. -/
def shortits : List Str :=
  ["Cage Match Podcast".data,
   "An interview with Robert Horvat".data,
   "An interview with Barry Strauss".data]

/-- Lines 102-111: `urltitle.find(shortit) == 0` is a prefix test; the first
listed prefix that matches wins, otherwise the title is kept. -/
def shortenNews (u : Str) : Str :=
  match shortits.find? (fun s => s.isPrefixOf u) with
  | some s => s
  | none => u

/-- The three publication types of the `PubType` enum (lines 24-27). -/
inductive PubType where
  | news | podcast | special
deriving DecidableEq, Repr

/-- The fragment of a `Publication` populated by the title-classification
part of `Publication.__init__` (lines 61-113): type, episode code, series
and (display) title. -/
structure Frag where
  type : PubType
  episode : Str
  series : Option Str
  title : Str
deriving DecidableEq, Repr

/-- Title classification, lines 61-113 of `Publication.__init__`, as a
function of the normalized page title `self.urltitle`.  Since `re.search`
returns the leftmost match, `epmatch.start() == 0` is equivalent to the
pattern matching at position 0.  A `none` result models the Python code
raising (`.group` on a failed anchored re-match). -/
def classifyTitle (u : Str) : Option Frag :=
  if epFound u then
    if epPatAt u then
      -- regular podcast episode (lines 65-69)
      match podMatch u with
      | some (ep, ti) => some ⟨.podcast, ep, none, ti⟩
      | none => none
    else
      -- special episode (lines 72-99)
      match specMatch u with
      | none => none
      | some (sername, ep2, ti) =>
        if sername = "Byzantine Stories".data then
          let eppath :=
            match partSearch ti with
            | some p => ep2 ++ '.' :: p
            | none => ep2
          some ⟨.special, eppath, some "stories".data, ti⟩
        else if sername = "Backer Rewards".data then
          some ⟨.special, ep2, some "rewards".data, ti⟩
        else
          some ⟨.news, [], none, u⟩
  else
    some ⟨.news, [], none, shortenNews u⟩

/-! ## Period resolution (`Publication.getPeriod`, lines 124-167) -/

/-- The non-breaking space character removed by `.replace(nbsp, ' ')`. -/
def nbsp : Char := Char.ofNat 160

/-- Worker for `strReplace`, structurally recursive on a fuel counter that
starts at the string's length (each step consumes at least one character, so
the fuel never runs out before the string does). -/
def strReplaceFuel (old new : Str) : Nat → Str → Str
  | 0, s => s
  | _+1, [] => []
  | fuel+1, c :: t =>
    if old.isPrefixOf (c :: t) && !old.isEmpty then
      new ++ strReplaceFuel old new fuel ((c :: t).drop old.length)
    else c :: strReplaceFuel old new fuel t

/-- Python's `s.replace(old, new)`: replace all non-overlapping occurrences,
scanning left to right.  (For the empty `old`, which the source never passes,
the string is returned unchanged.) -/
def strReplace (s old new : Str) : Str := strReplaceFuel old new s.length s

/-- Python's `s.split('-')` (line 151): dash-separated components, keeping
empty components.  Never returns the empty list. -/
def splitDash : Str → List Str
  | [] => [[]]
  | c :: t =>
    if c = '-' then [] :: splitDash t
    else
      match splitDash t with
      | h :: r => (c :: h) :: r
      | [] => [[c]]

/-- Value of a decimal digit list. -/
def natOfDigits (s : Str) : Nat := s.foldl (fun n c => n * 10 + (c.toNat - 48)) 0

/-- Python's `int(s)` on the strings reachable here (components of a
`[1-9][0-9][0-9-]+` match, and `data-first-ep` attribute text): surrounding
whitespace is tolerated, then a non-empty run of decimal digits is required;
anything else raises (`none`).  (Signs, underscores and non-ASCII digits,
which `int()` would also accept, do not occur in these inputs.) -/
def pyIntNat (s : Str) : Option Nat :=
  let isSp : Char → Bool := fun c => c == ' ' || c == '\t' || c == '\n' || c == '\r'
  let t := ((s.dropWhile isSp).reverse.dropWhile isSp).reverse
  if t ≠ [] && t.all isDig then some (natOfDigits t) else none

/-- Python's `'%d' % n` for a natural number. -/
def formatNat (n : Nat) : Str := (Nat.repr n).data

/-- `re.search('^Period: (.*)$', s)` (line 144), returning the captured text. -/
def perMatch (s : Str) : Option Str :=
  if "Period: ".data.isPrefixOf s then dotStarEnd (s.drop 8) else none

/-- `re.search('^Period: ([1-9][0-9][0-9-]+)', s)` (line 148): a year token
starting with a nonzero digit, then a digit, then at least one digit or dash
(greedy, nothing follows in the pattern, so maximal). -/
def yrsMatch (s : Str) : Option Str :=
  if "Period: ".data.isPrefixOf s then
    match s.drop 8 with
    | c1 :: c2 :: r =>
      if decide (49 ≤ c1.toNat ∧ c1.toNat ≤ 57) && isDig c2 then
        let tl := r.takeWhile (fun c => isDig c || c == '-')
        if tl ≠ [] then some (c1 :: c2 :: tl) else none
      else none
    | _ => none
  else none

/-- One iteration of the `for pi in range(...)` loop of lines 135-164, on the
innermost text `raw` of one matched paragraph, threading the `period`
accumulator.  `none` models `int('')` (or any failed `int`) raising. -/
def getPeriodStep (period : Str) (raw : Str) : Option Str :=
  let pertext := strReplace raw [nbsp] [' ']
  match perMatch pertext with
  | none => some period
  | some g1 =>
    match yrsMatch pertext with
    | some yrs =>
      match splitDash yrs with
      | f :: t0 :: _ =>
        match pyIntNat f, pyIntNat t0 with
        | some fr, some toN =>
          let toN := if toN < 10 then fr / 10 * 10 + toN
                     else if toN < 100 then fr / 100 * 100 + toN
                     else toN
          some (formatNat fr ++ '-' :: formatNat toN)
        | _, _ => none
      | _ => some yrs
    | none => some (strReplace (strReplace g1 [nbsp] [' ']) "century".data "c.".data)

/-- The loop of lines 135-164 over all matched paragraphs: a later
`Period:` match overwrites an earlier one. -/
def getPeriodLoop : Str → List Str → Option Str
  | period, [] => some period
  | period, raw :: rest =>
    match getPeriodStep period raw with
    | none => none
    | some p => getPeriodLoop p rest

/-- `Publication.getPeriod` (lines 124-167) as a function of the display
title and the innermost texts of the `#content p:contains("Period:")`
elements, in document order.  `''` (the empty string) is the default when no
paragraph yields a period. -/
def getPeriod (title : Str) (pertexts : List Str) : Option Str :=
  if title = "Cyprus: 565 – 965 AD".data then some "565-965".data
  else getPeriodLoop [] pertexts

/-! ## The index document and `Publication.addToIndex` (lines 174-274)

The persistent HTML index is modelled structurally: a table cell is either
plain text or the anchor produced by `aFormat` (target, tooltip, label); a
row is the three cells of `trFormat`; the document carries the state
attributes of `#state`, the skip markers, the century panels (assumed, as in
the index template, to be adjacent siblings in document order), the special
series panels and the "all" panel.  The cosmetic blank-line cleanup of
lines 182-183 has no counterpart in this structural model. -/

/-- One table cell: plain text, or the `aFormat` anchor of line 189
(`href`, `title` tooltip, link text). -/
inductive Cell where
  | txt (s : Str)
  | link (href tooltip label : Str)
deriving DecidableEq, Repr

/-- One `trFormat` table row (line 190): episode, title and period cells. -/
structure Row where
  episode : Cell
  title : Cell
  period : Cell
deriving DecidableEq, Repr

/-- A century panel: its `data-century` identifier, its `data-first-ep`
threshold (attribute text, parsed with `int()` only when consulted), and its
appended rows. -/
structure CPanel where
  century : Str
  firstEp : Str
  rows : List Row
deriving DecidableEq, Repr

/-- The index document.  `pendingSkip` lists the `data-url` attributes of the
`span.skip` markers in document order; `centuryPanels` the century panels in
document order; `seriesPanels` maps each `data-series` key to its panel's
rows. -/
structure IndexDoc where
  pendingSkip : List Str
  currCentury : Str
  centuryPanels : List CPanel
  seriesPanels : List (Str × List Row)
  allRows : List Row
  currPub : Str
  currIndexDate : Str
deriving DecidableEq, Repr

/-- A fully classified publication record as consumed by `addToIndex`:
the fields of `Publication` plus the page's `article:published_time` meta
content (read at line 267; present on every publication page). -/
structure Pub where
  url : Str
  type : PubType
  next : Option Str
  urltitle : Str
  title : Str
  episode : Str
  series : Option Str
  period : Str
  pubDate : Str
deriving DecidableEq, Repr

/-- Row construction, lines 189-204: if the episode code is non-empty the
code cell carries the link and the title is plain text, otherwise the title
cell carries the link. -/
def mkRow (p : Pub) : Row :=
  if p.episode ≠ [] then
    ⟨.link p.url p.urltitle p.episode, .txt p.title, .txt p.period⟩
  else
    ⟨.txt [], .link p.url p.urltitle p.title, .txt p.period⟩

/-- The hardcoded one-page-three-episodes title of line 212. -/
def jcTitle : Str := "John Chrysostom. Parts 2, 3 and 4.".data

/-- The three fixed rows of lines 213-227 (codes, titles and periods are
hardcoded; each code cell links to the merged page). -/
def jcRows (p : Pub) : List Row :=
  [⟨.link p.url p.urltitle "1.2".data,
    .txt "John Chrysostom. Part 2 – Building Orthodoxy".data, .txt "349-397".data⟩,
   ⟨.link p.url p.urltitle "1.3".data,
    .txt "John Chrysostom. Part 3 – The Snake Pit".data, .txt "397-400".data⟩,
   ⟨.link p.url p.urltitle "1.4".data,
    .txt "John Chrysostom. Part 4 – A Byzantine Story".data, .txt "400-407".data⟩]

/-- Append rows to every series panel matching the key (`pyquery` `.append`
on the selector of line 228/232; a no-op when no panel matches). -/
def appendSeries (sps : List (Str × List Row)) (ser : Str) (rows : List Row) :
    List (Str × List Row) :=
  sps.map (fun q => if q.1 = ser then (q.1, q.2 ++ rows) else q)

/-- Append a row to every century panel matching the identifier (line 262). -/
def appendCentury (cps : List CPanel) (c : Str) (r : Row) : List CPanel :=
  cps.map (fun q => if q.century = c then { q with rows := q.rows ++ [r] } else q)

/-- The adjacent-sibling selector of line 248: the century panel immediately
following the first panel with identifier `c`.  (`pyquery` collects every
century panel directly preceded by a panel with identifier `c` and `.attr`
reads the first; since successors appear right after their predecessors,
that first element is the successor of the first matching panel.) -/
def nextCPanel : List CPanel → Str → Option CPanel
  | [], _ => none
  | [_], _ => none
  | a :: b :: rest, c => if a.century = c then some b else nextCPanel (b :: rest) c

/-- Lines 244-245 combined: `re.search('^[0-9]+$', s)` and, when it matches,
`int(s)`.  `$` also matches just before a final newline, and `int()`
tolerates that trailing newline, so both branches parse to the digits'
value; when the regex fails no conversion is attempted. -/
def epNumericVal (s : Str) : Option Nat :=
  if s ≠ [] && s.all isDig then some (natOfDigits s)
  else if s.getLast? = some '\n' && s.dropLast ≠ [] && s.dropLast.all isDig then
    some (natOfDigits s.dropLast)
  else none

/-- Lines 237-255: the century panel a news/podcast row is appended to
(`century` starts as `d.currCentury`, line 237).  For a podcast with a
pure-numeric code, consult the panel following the current century; if its
`data-first-ep` does not parse, `int()` raises (`none`); if the episode
number reaches the threshold, advance. -/
def centuryTarget (p : Pub) (d : IndexDoc) : Option Str :=
  if p.type = .podcast then
    match epNumericVal p.episode with
    | some epnum =>
      match nextCPanel d.centuryPanels d.currCentury with
      | some np =>
        match pyIntNat np.firstEp with
        | none => none
        | some nce => if nce ≤ epnum then some np.century else some d.currCentury
      | none => some d.currCentury
    | none => some d.currCentury
  else some d.currCentury

/-- The non-skip branch of `addToIndex` (lines 186-263): build the row and
append it to the proper panels.  `none` models an exception: `.title()` on a
`None` series (line 208) or `int()` on a malformed `data-first-ep`
(line 250). -/
def addRow (p : Pub) (d : IndexDoc) : Option IndexDoc :=
  if p.type = .special then
    match p.series with
    | none => none
    | some ser =>
      if p.title = jcTitle then
        some { d with seriesPanels := appendSeries d.seriesPanels ser (jcRows p) }
      else
        some { d with seriesPanels := appendSeries d.seriesPanels ser [mkRow p] }
  else
    match centuryTarget p d with
    | none => none
    | some c =>
      some { d with currCentury := c,
                    centuryPanels := appendCentury d.centuryPanels c (mkRow p),
                    allRows := d.allRows ++ [mkRow p] }

/-- The unconditional state update of lines 265-273: the index date is the
record's published date truncated to `YYYY-MM-DD` when a next publication
exists, today's date otherwise; the current-publication marker becomes the
record's URL.  (When the podcast advanced the century, `addRow` already
recorded the new `data-curr-century`.) -/
def stateUpd (p : Pub) (today : Str) (d : IndexDoc) : IndexDoc :=
  { d with
    currIndexDate := match p.next with
                     | some _ => p.pubDate.take 10
                     | none => today,
    currPub := p.url }

/-- `Publication.addToIndex` (lines 174-274).  If the URL has a skip marker
(line 177), remove every marker with that URL and add nothing; otherwise add
the row(s).  Either way the state update runs last.  `today` is the wall
clock date of line 269. -/
def addToIndex (p : Pub) (today : Str) (d : IndexDoc) : Option IndexDoc :=
  if p.url ∈ d.pendingSkip then
    some (stateUpd p today { d with pendingSkip := d.pendingSkip.filter (· ≠ p.url) })
  else
    (addRow p d).map (stateUpd p today)

/-- A sequence of `addToIndex` calls within one run, stopping at the first
exception. -/
def mergeSeq : List Pub → Str → IndexDoc → Option IndexDoc
  | [], _, d => some d
  | p :: ps, today, d =>
    match addToIndex p today d with
    | none => none
    | some d' => mergeSeq ps today d'

/-- The main pagination loop (lines 311-318) over the chain of publications
reachable from the resume point, returning the final document and the number
of publications fetched and merged (`npubs`).  After merging, traversal
continues with `record.next` only while `maxPubs` is unset or the counter is
still `≤ maxPubs`. -/
def mainLoop (maxPubs : Option Nat) (today : Str) :
    List Pub → IndexDoc → Nat → Option (IndexDoc × Nat)
  | [], d, npubs => some (d, npubs)
  | p :: rest, d, npubs =>
    match addToIndex p today d with
    | none => none
    | some d' =>
      if ((match maxPubs with
           | none => true
           | some m => decide (npubs + 1 ≤ m)) && p.next.isSome) then
        mainLoop maxPubs today rest d' (npubs + 1)
      else some (d', npubs + 1)

/-! ## Helper lemmas -/

lemma isLow_not_isDig {c : Char} (h : isLow c = true) : isDig c = false := by
  simp only [isLow, decide_eq_true_eq] at h
  simp only [isDig, decide_eq_false_iff_not]
  omega

lemma takeWhile_all_append {p : Char → Bool} {l r : Str} {c : Char}
    (hl : ∀ a ∈ l, p a = true) (hc : p c = false) :
    (l ++ c :: r).takeWhile p = l := by
  rw [List.takeWhile_append_of_pos hl, List.takeWhile_cons_of_neg (by simp [hc]),
    List.append_nil]

lemma dotStarEnd_no_nl {s : Str} (h : s.contains '\n' = false) :
    dotStarEnd s = some s := by
  unfold dotStarEnd
  rw [h]
  simp

/-- Shape hypothesis for an optional-letter group: empty, or one lowercase
letter. -/
def OptLetter (opt : Str) : Prop := opt = [] ∨ ∃ c, opt = [c] ∧ isLow c = true

lemma isLow_ne_space {c : Char} (h : isLow c = true) : (' ' == c) = false := by
  simp only [isLow, decide_eq_true_eq] at h
  rw [beq_eq_false_iff_ne]
  intro he
  rw [← he] at h
  simp at h

lemma isEmpty_false_of_ne_nil {l : Str} (h : l ≠ []) : l.isEmpty = false := by
  cases l with
  | nil => exact absurd rfl h
  | cons a t => rfl

lemma epNumSepRest_decomp {ds opt rest : Str}
    (hds : ds ≠ []) (hdig : ∀ c ∈ ds, isDig c = true) (hopt : OptLetter opt)
    (hnl : rest.contains '\n' = false) :
    epNumSepRest (ds ++ opt ++ sep3 ++ rest) = some (ds ++ opt, rest) := by
  have hdse : dotStarEnd rest = some rest := dotStarEnd_no_nl hnl
  have hpre2 : sep3.isPrefixOf (sep3 ++ rest) = true := by
    rw [List.isPrefixOf_iff_prefix]; exact List.prefix_append _ _
  have hsep : sep3 ++ rest = ' ' :: '–' :: ' ' :: rest := rfl
  rcases hopt with h | ⟨c, hoc, hc⟩
  · subst h
    simp only [List.append_nil, List.append_assoc, hsep]
    have htw : List.takeWhile isDig (ds ++ ' ' :: '–' :: ' ' :: rest) = ds :=
      takeWhile_all_append hdig (by decide)
    have hlow : isLow ' ' = false := by decide
    have hpre3 : sep3 <+: ' ' :: '–' :: ' ' :: rest := by
      rw [← hsep]; exact List.prefix_append _ _
    simp [epNumSepRest, htw, hds, List.drop_left, hlow, hpre3, hdse]
  · subst hoc
    simp only [List.append_assoc, List.singleton_append]
    have htw : List.takeWhile isDig (ds ++ (c :: (sep3 ++ rest))) = ds :=
      takeWhile_all_append hdig (isLow_not_isDig hc)
    have hdrop3 : List.drop 3 (sep3 ++ rest) = rest := rfl
    have hpre2' : sep3 <+: sep3 ++ rest := List.prefix_append _ _
    simp [epNumSepRest, htw, hds, List.drop_left, hc, hpre2', hdrop3, hdse]

lemma epPatAt_decomp {ds opt rest : Str}
    (hds : ds ≠ []) (hdig : ∀ c ∈ ds, isDig c = true) (hopt : OptLetter opt) :
    epPatAt (epWord ++ (ds ++ opt ++ sep3 ++ rest)) = true := by
  have hpre : epWord.isPrefixOf (epWord ++ (ds ++ opt ++ sep3 ++ rest)) = true := by
    rw [List.isPrefixOf_iff_prefix]; exact List.prefix_append _ _
  have hdrop : (epWord ++ (ds ++ opt ++ sep3 ++ rest)).drop 8 = ds ++ opt ++ sep3 ++ rest :=
    List.drop_left' rfl
  have hpre2 : sep3.isPrefixOf (sep3 ++ rest) = true := by
    rw [List.isPrefixOf_iff_prefix]; exact List.prefix_append _ _
  have hne : ds.isEmpty = false := isEmpty_false_of_ne_nil hds
  have hsep : sep3 ++ rest = ' ' :: '–' :: ' ' :: rest := rfl
  rcases hopt with h | ⟨c, hoc, hc⟩
  · subst h
    have hda : ds ++ [] ++ sep3 ++ rest = ds ++ (sep3 ++ rest) := by simp
    rw [hda] at hpre hdrop ⊢
    have htw : List.takeWhile isDig (ds ++ (sep3 ++ rest)) = ds := by
      rw [hsep]; exact takeWhile_all_append hdig (by decide)
    simp [epPatAt, hpre, hdrop, htw, hne, List.drop_left, hpre2]
  · subst hoc
    have hda : ds ++ [c] ++ sep3 ++ rest = ds ++ (c :: (sep3 ++ rest)) := by simp
    rw [hda] at hpre hdrop ⊢
    have htw : List.takeWhile isDig (ds ++ (c :: (sep3 ++ rest))) = ds :=
      takeWhile_all_append hdig (isLow_not_isDig hc)
    simp [epPatAt, hpre, hdrop, htw, hne, List.drop_left, hpre2, hc]

lemma epFound_of_patAt {s : Str} (h : epPatAt s = true) : epFound s = true := by
  cases s with
  | nil => simpa [epFound] using h
  | cons c t => simp [epFound, h]

lemma epFound_append (pre : Str) {s : Str} (h : epPatAt s = true) : epFound (pre ++ s) = true := by
  induction pre with
  | nil => simpa using epFound_of_patAt h
  | cons c t ih => simp [epFound, ih]

lemma podMatch_decomp {ds opt rest : Str}
    (hds : ds ≠ []) (hdig : ∀ c ∈ ds, isDig c = true) (hopt : OptLetter opt)
    (hnl : rest.contains '\n' = false) :
    podMatch (epWord ++ (ds ++ opt ++ sep3 ++ rest)) = some (ds ++ opt, rest) := by
  have hdrop : (epWord ++ (ds ++ opt ++ sep3 ++ rest)).drop 8 = ds ++ opt ++ sep3 ++ rest :=
    List.drop_left' rfl
  have hpre : epWord <+: epWord ++ (ds ++ opt ++ sep3 ++ rest) := List.prefix_append _ _
  have he := epNumSepRest_decomp hds hdig hopt hnl
  simp only [List.append_assoc] at hdrop he ⊢
  simp [podMatch, hpre, hdrop, he]

lemma epPatAt_cons_false {c : Char} {t : Str} (h : ('E' == c) = false) :
    epPatAt (c :: t) = false := by
  have hp : epWord.isPrefixOf (c :: t) = false := by
    show List.isPrefixOf ('E' :: "pisode ".data) (c :: t) = false
    simp [List.isPrefixOf, h]
  simp [epPatAt, hp]

lemma specTail_dot (r : Str) : specTail ('.' :: r) = specTail2 r := by
  simp [specTail]

lemma specTail2_decomp {N rest : Str} (hN : N ≠ []) (hdig : ∀ c ∈ N, isDig c = true)
    (hnl : rest.contains '\n' = false) :
    specTail2 (" Episode ".data ++ (N ++ (sep3 ++ rest))) = some (N, rest) := by
  have hdrop : (" Episode ".data ++ (N ++ (sep3 ++ rest))).drop 9 = N ++ (sep3 ++ rest) :=
    List.drop_left' rfl
  have hpre : " Episode ".data <+: " Episode ".data ++ (N ++ (sep3 ++ rest)) :=
    List.prefix_append _ _
  have he := epNumSepRest_decomp hN hdig (Or.inl rfl) hnl
  simp only [List.append_nil, List.append_assoc] at he
  simp [specTail2, hpre, hdrop, he]

lemma partAt_complete {p b : Str} (hp : p ≠ []) (hdig : ∀ c ∈ p, isDig c = true) :
    partAt (" Part ".data ++ (p ++ (sep3 ++ b))) = some p := by
  have hdrop : (" Part ".data ++ (p ++ (sep3 ++ b))).drop 6 = p ++ (sep3 ++ b) :=
    List.drop_left' rfl
  have hpre : " Part ".data <+: " Part ".data ++ (p ++ (sep3 ++ b)) := List.prefix_append _ _
  have hsep : sep3 ++ b = ' ' :: '–' :: ' ' :: b := rfl
  have htw : List.takeWhile isDig (p ++ (sep3 ++ b)) = p := by
    rw [hsep]; exact takeWhile_all_append hdig (by decide)
  have hpre2 : sep3 <+: sep3 ++ b := List.prefix_append _ _
  simp [partAt, hpre, hdrop, htw, hp, List.drop_left, hpre2]

lemma drop_takeWhile_length (p : Char → Bool) :
    ∀ l : Str, l.drop (l.takeWhile p).length = l.dropWhile p
  | [] => rfl
  | c :: t => by
    by_cases h : p c
    · simp [List.takeWhile_cons_of_pos h, List.dropWhile_cons_of_pos h,
        drop_takeWhile_length p t]
    · simp [List.takeWhile_cons_of_neg h, List.dropWhile_cons_of_neg h]

lemma partAt_sound {s p : Str} (h : partAt s = some p) :
    ∃ b, s = " Part ".data ++ (p ++ (sep3 ++ b)) ∧ p ≠ [] ∧ ∀ c ∈ p, isDig c = true := by
  unfold partAt at h
  split at h
  case isFalse => exact absurd h (by simp)
  case isTrue hpre =>
    split at h
    case isFalse => exact absurd h (by simp)
    case isTrue hc =>
      rw [Bool.and_eq_true] at hc
      obtain ⟨hne, hpre2⟩ := hc
      rw [decide_eq_true_eq] at hne
      injection h with hqp
      obtain ⟨u, hu⟩ := List.isPrefixOf_iff_prefix.mp hpre
      have hu6 : s.drop 6 = u := by rw [← hu]; exact List.drop_left' rfl
      rw [hu6] at hqp hne hpre2
      have hud : u.drop (u.takeWhile isDig).length = u.dropWhile isDig :=
        drop_takeWhile_length isDig u
      rw [hud] at hpre2
      obtain ⟨b, hb⟩ := List.isPrefixOf_iff_prefix.mp hpre2
      have hsplit : u.takeWhile isDig ++ u.dropWhile isDig = u :=
        List.takeWhile_append_dropWhile isDig u
      have hu2 : u = p ++ (sep3 ++ b) := by rw [← hsplit, hqp, ← hb]
      refine ⟨b, ?_, ?_, ?_⟩
      · rw [← hu, hu2]
      · rw [← hqp]; exact hne
      · intro c hcm; rw [← hqp] at hcm; exact List.mem_takeWhile_imp hcm

lemma partSearch_sound {s p : Str} (h : partSearch s = some p) :
    ∃ a b, s = a ++ (" Part ".data ++ (p ++ (sep3 ++ b))) ∧ p ≠ [] ∧
      ∀ c ∈ p, isDig c = true := by
  induction s with
  | nil => simp [partSearch] at h
  | cons c t ih =>
    unfold partSearch at h
    cases hat : partAt (c :: t) with
    | some q =>
      rw [hat] at h
      obtain ⟨b, hb, hq, hd⟩ := partAt_sound hat
      refine ⟨[], b, ?_, ?_, ?_⟩ <;> simp_all
    | none =>
      rw [hat] at h
      obtain ⟨a, b, hb, hq, hd⟩ := ih h
      exact ⟨c :: a, b, by simp [hb], hq, hd⟩

lemma partSearch_isSome {x : Str} (a : Str) {p : Str} (h : partAt x = some p) :
    ∃ q, partSearch (a ++ x) = some q := by
  induction a with
  | nil =>
    cases x with
    | nil => simp [partAt] at h
    | cons c t => exact ⟨p, by simp [partSearch, h]⟩
  | cons c t ih =>
    obtain ⟨q, hq⟩ := ih
    cases hat : partAt (c :: (t ++ x)) with
    | some r => exact ⟨r, by simp [partSearch, hat]⟩
    | none => exact ⟨q, by simp [partSearch, hat, hq]⟩

lemma specMatch_stories {N rest : Str}
    (hN : N ≠ []) (hdig : ∀ c ∈ N, isDig c = true)
    (hnl : rest.contains '\n' = false) :
    specMatch ("Byzantine Stories. Episode ".data ++ N ++ sep3 ++ rest) =
      some ("Byzantine Stories".data, N, rest) := by
  have hshape : "Byzantine Stories. Episode ".data ++ N ++ sep3 ++ rest
      = "Byzantine Stories".data ++ ('.' :: (" Episode ".data ++ (N ++ (sep3 ++ rest)))) := by
    simp only [List.append_assoc]; rfl
  rw [hshape]
  have htw : List.takeWhile isAlphaSpace
      ("Byzantine Stories".data ++ ('.' :: (" Episode ".data ++ (N ++ (sep3 ++ rest)))))
      = "Byzantine Stories".data :=
    takeWhile_all_append (by decide) (by decide)
  have hdrop : ("Byzantine Stories".data ++
        ('.' :: (" Episode ".data ++ (N ++ (sep3 ++ rest))))).drop 17
      = '.' :: (" Episode ".data ++ (N ++ (sep3 ++ rest))) :=
    List.drop_left' rfl
  have htake : ("Byzantine Stories".data ++
        ('.' :: (" Episode ".data ++ (N ++ (sep3 ++ rest))))).take 17
      = "Byzantine Stories".data :=
    List.take_left' rfl
  have hst : specTail (('.' :: (" Episode ".data ++ (N ++ (sep3 ++ rest))))) =
      some (N, rest) := by
    rw [specTail_dot]; exact specTail2_decomp hN hdig hnl
  unfold specMatch
  rw [htw]
  show specMatchAux (16 + 1) _ = _
  rw [specMatchAux, hdrop, hst, htake]

/-! ## Claim theorems -/

/-- Claim C1: a raw title in which the pattern `Episode <N><optional letter> – `
occurs at position 0 — that is, a title of the shape
`"Episode " ++ digits ++ optional lowercase letter ++ " – " ++ rest` (raw
titles are whitespace-normalized, hence newline-free) — classifies as a
regular episode whose `episodeCode` is the number/letter token and whose
display title is everything after the separator. -/
theorem classify_episode_at_start (ds opt rest : Str)
    (hds : ds ≠ []) (hdig : ∀ c ∈ ds, isDig c = true) (hopt : OptLetter opt)
    (hnl : rest.contains '\n' = false) :
    classifyTitle (epWord ++ (ds ++ opt ++ sep3 ++ rest)) =
      some ⟨PubType.podcast, ds ++ opt, none, rest⟩ := by
  have hpat : epPatAt (epWord ++ (ds ++ opt ++ sep3 ++ rest)) = true :=
    epPatAt_decomp hds hdig hopt
  have hfound : epFound (epWord ++ (ds ++ opt ++ sep3 ++ rest)) = true :=
    epFound_of_patAt hpat
  have hpod := podMatch_decomp hds hdig hopt hnl
  simp only [List.append_assoc] at hpat hfound hpod ⊢
  simp [classifyTitle, hfound, hpat, hpod]

/-- Witness for C1 at the concrete title `"Episode 12a – The Fall"`. -/
theorem classify_episode_at_start_witness :
    classifyTitle "Episode 12a – The Fall".data =
      some ⟨PubType.podcast, "12a".data, none, "The Fall".data⟩ := by
  have h := classify_episode_at_start "12".data "a".data "The Fall".data
    (by decide) (by decide) (Or.inr ⟨'a', rfl, by decide⟩) (by decide)
  exact h

/-- Modelled from the spec's sub-pattern search, as amended: the display
title contains a space-preceded `" Part <P> – "` sub-pattern with part
number `p`. -/
def PartDecomp (rest p : Str) : Prop :=
  ∃ a b, rest = a ++ (" Part ".data ++ (p ++ (sep3 ++ b))) ∧ p ≠ [] ∧
    ∀ c ∈ p, isDig c = true

/-- Claim C8 as amended: for a raw title
`"Byzantine Stories. Episode " ++ N ++ " – " ++ rest` the classifier returns
a special-episode fragment with `series = stories` and display title `rest`;
its episode code is the dotted `"<N>.<P>"` for a part number `P` occurring in
a space-preceded `" Part <P> – "` sub-pattern of `rest` when one occurs, and
just `"<N>"` when no space-preceded sub-pattern occurs.  (The sub-pattern of
the source's regex requires the space before `Part`.) -/
theorem classify_stories (N rest : Str)
    (hN : N ≠ []) (hdig : ∀ c ∈ N, isDig c = true)
    (hnl : rest.contains '\n' = false) :
    ∃ code,
      classifyTitle ("Byzantine Stories. Episode ".data ++ N ++ sep3 ++ rest) =
        some ⟨PubType.special, code, some "stories".data, rest⟩ ∧
      ((∃ p, PartDecomp rest p ∧ code = N ++ '.' :: p) ∨
       ((¬ ∃ p, PartDecomp rest p) ∧ code = N)) := by
  have hpat : epPatAt ("Byzantine Stories. Episode ".data ++ N ++ sep3 ++ rest) = false := by
    rw [show ("Byzantine Stories. Episode ".data ++ N ++ sep3 ++ rest : Str)
        = 'B' :: ("yzantine Stories. Episode ".data ++ (N ++ (sep3 ++ rest))) from by
      simp only [List.append_assoc]; rfl]
    exact epPatAt_cons_false (by decide)
  have h0 : epPatAt (epWord ++ (N ++ [] ++ sep3 ++ rest)) = true :=
    epPatAt_decomp hN hdig (Or.inl rfl)
  have hfound : epFound ("Byzantine Stories. Episode ".data ++ N ++ sep3 ++ rest) = true := by
    simp only [List.append_nil, List.append_assoc] at h0 ⊢
    exact epFound_append "Byzantine Stories. ".data h0
  have hsm := specMatch_stories hN hdig hnl
  cases hps : partSearch rest with
  | some p =>
    refine ⟨N ++ '.' :: p, ?_, ?_⟩
    · simp only [List.append_assoc, List.cons_append, List.nil_append] at hpat hfound hsm ⊢
      simp [classifyTitle, hfound, hpat, hsm, hps]
    · left
      obtain ⟨a, b, hab, hp, hd⟩ := partSearch_sound hps
      exact ⟨p, ⟨a, b, hab, hp, hd⟩, rfl⟩
  | none =>
    refine ⟨N, ?_, ?_⟩
    · simp only [List.append_assoc, List.cons_append, List.nil_append] at hpat hfound hsm ⊢
      simp [classifyTitle, hfound, hpat, hsm, hps]
    · right
      refine ⟨?_, rfl⟩
      rintro ⟨p, a, b, hab, hp, hd⟩
      have hat := partAt_complete (b := b) hp hd
      obtain ⟨q, hq⟩ := partSearch_isSome a hat
      rw [hab, hq] at hps
      cases hps

/-- Witness for the amended C8 at the concrete title
`"Byzantine Stories. Episode 1 – John Part 2 – X"`. -/
theorem classify_stories_witness :
    ∃ code,
      classifyTitle ("Byzantine Stories. Episode ".data ++ "1".data ++ sep3 ++
          "John Part 2 – X".data) =
        some ⟨PubType.special, code, some "stories".data, "John Part 2 – X".data⟩ ∧
      ((∃ p, PartDecomp "John Part 2 – X".data p ∧ code = "1".data ++ '.' :: p) ∨
       ((¬ ∃ p, PartDecomp "John Part 2 – X".data p) ∧ code = "1".data)) :=
  classify_stories "1".data "John Part 2 – X".data (by decide) (by decide) (by decide)

/-- Claim C8, counterexample to the unamended claim: in the raw title
`"Byzantine Stories. Episode 3 – Part 2 – X"` the display title
`"Part 2 – X"` does contain a `"Part <P> – "` sub-pattern (at its start,
with no preceding space), yet the episode code is `"3"`, not the dotted
`"3.2"` the claim requires. -/
theorem classify_stories_part_counterexample :
    (∃ a b, ("Part 2 – X".data : Str) = a ++ ("Part ".data ++ ("2".data ++ (sep3 ++ b)))) ∧
    classifyTitle "Byzantine Stories. Episode 3 – Part 2 – X".data =
      some ⟨PubType.special, "3".data, some "stories".data, "Part 2 – X".data⟩ ∧
    ("3".data : Str) ≠ "3.2".data := by
  refine ⟨⟨[], "X".data, by decide⟩, by decide, by decide⟩

/-- Claim C9: classification is not total.  In the raw title
`"1, Episode 5 – X"` the episode pattern occurs at a non-zero position, the
prefix before it (`"1, "`) is not letters-and-spaces, the anchored
special-episode pattern fails, and classification raises (modelled by
`classifyTitle` returning `none`). -/
theorem classify_special_prefix_raises :
    epFound "1, Episode 5 – X".data = true ∧
    epPatAt "1, Episode 5 – X".data = false ∧
    classifyTitle "1, Episode 5 – X".data = none := by
  exact ⟨by decide, by decide, by decide⟩

/-- Claim C2, corrected (counterexample part): the free-text period label
`"Period: 12th century"` resolves to `"12th c."` (the source abbreviates the
word `century` to `c.` in place), not to `"c. 12"` as the claim states. -/
theorem getPeriod_century_counterexample :
    getPeriod "T".data ["Period: 12th century".data] = some "12th c.".data ∧
    ("12th c.".data : Str) ≠ "c. 12".data := by
  exact ⟨by decide, by decide⟩

/-- Claim C2 as amended: `"Period: 1071-8"` resolves to `"1071-1078"`
(abbreviated end-year expanded), `"Period: 976-981"` resolves to `"976-981"`
unchanged, and the free-text label `"Period: 12th century"` resolves to
`"12th c."`. -/
theorem getPeriod_examples :
    getPeriod "T".data ["Period: 1071-8".data] = some "1071-1078".data ∧
    getPeriod "T".data ["Period: 976-981".data] = some "976-981".data ∧
    getPeriod "T".data ["Period: 12th century".data] = some "12th c.".data := by
  exact ⟨by decide, by decide, by decide⟩

/-- Claim C10: the period resolver is not total.  On the label text
`"Period: 1071-"` the year-range pattern still matches (capturing
`"1071-"`), the split yields an empty TO component, and `int('')` raises
(modelled by `getPeriod` returning `none`). -/
theorem getPeriod_trailing_dash_raises :
    yrsMatch "Period: 1071-".data = some "1071-".data ∧
    getPeriod "T".data ["Period: 1071-".data] = none := by
  exact ⟨by decide, by decide⟩

/-! ## Lemmas on the accumulator -/

lemma appendCentury_sig (cps : List CPanel) (c : Str) (r : Row) :
    (appendCentury cps c r).map (fun q => (q.century, q.firstEp))
      = cps.map (fun q => (q.century, q.firstEp)) := by
  unfold appendCentury
  rw [List.map_map]
  apply List.map_congr_left
  intro q _
  by_cases hq : q.century = c <;> simp [hq]

lemma nextCPanel_mem {ps : List CPanel} {c : Str} {np : CPanel}
    (h : nextCPanel ps c = some np) : np ∈ ps := by
  induction ps with
  | nil => cases h
  | cons a rest ih =>
    cases rest with
    | nil => cases h
    | cons b rest2 =>
      unfold nextCPanel at h
      split at h
      · injection h with h'
        subst h'
        exact List.mem_cons_of_mem _ (List.mem_cons_self _ _)
      · exact List.mem_cons_of_mem _ (ih h)

/-- Position of a century identifier in the list of panel identifiers (the
panels' document order; the list's length when absent). -/
def idxOfStr (c : Str) : List Str → Nat
  | [] => 0
  | x :: t => if x = c then 0 else idxOfStr c t + 1

lemma idxOfStr_cons_eq {x c : Str} {t : List Str} (h : x = c) :
    idxOfStr c (x :: t) = 0 := by simp [idxOfStr, h]

lemma idxOfStr_cons_ne {x c : Str} {t : List Str} (h : x ≠ c) :
    idxOfStr c (x :: t) = idxOfStr c t + 1 := by simp [idxOfStr, h]

lemma nextCPanel_idx {ps : List CPanel} {c : Str} {np : CPanel}
    (hnd : (ps.map (fun q => q.century)).Nodup)
    (h : nextCPanel ps c = some np) :
    idxOfStr np.century (ps.map (fun q => q.century))
      = idxOfStr c (ps.map (fun q => q.century)) + 1 := by
  induction ps with
  | nil => cases h
  | cons a rest ih =>
    cases rest with
    | nil => cases h
    | cons b rest2 =>
      unfold nextCPanel at h
      simp only [List.map_cons] at hnd ⊢
      obtain ⟨hnotin, hnd'⟩ := List.nodup_cons.mp hnd
      split at h
      case isTrue hac =>
        injection h with h'
        subst h'
        have hab : a.century ≠ b.century := fun he =>
          hnotin (he ▸ List.mem_cons_self _ _)
        rw [idxOfStr_cons_ne hab, idxOfStr_cons_eq hac, idxOfStr_cons_eq rfl]
      case isFalse hac =>
        have hmem := nextCPanel_mem h
        have hanp : a.century ≠ np.century := by
          intro he
          apply hnotin
          rw [he]
          have hm2 : np.century ∈ List.map (fun q => q.century) (b :: rest2) :=
            List.mem_map_of_mem _ hmem
          simpa using hm2
        have hidx := ih (by simpa using hnd') h
        simp only [List.map_cons] at hidx
        rw [idxOfStr_cons_ne hanp, idxOfStr_cons_ne hac, hidx]

lemma firstEp_wf_preserved {d d1 : IndexDoc}
    (hsig : d1.centuryPanels.map (fun q => (q.century, q.firstEp))
      = d.centuryPanels.map (fun q => (q.century, q.firstEp)))
    (h3 : ∀ cp ∈ d.centuryPanels, (pyIntNat cp.firstEp).isSome = true) :
    ∀ cp ∈ d1.centuryPanels, (pyIntNat cp.firstEp).isSome = true := by
  intro cp hcp
  have hm : (cp.century, cp.firstEp) ∈
      d.centuryPanels.map (fun q => (q.century, q.firstEp)) := by
    rw [← hsig]
    exact List.mem_map_of_mem _ hcp
  obtain ⟨q, hq, he⟩ := List.mem_map.mp hm
  have hfe : q.firstEp = cp.firstEp := congrArg Prod.snd he
  rw [← hfe]
  exact h3 q hq

/-- One successful merge leaves the century panels' identifiers and
thresholds unchanged, and either keeps the current century or advances it to
the panel following it, exactly when a podcast record with a pure-numeric
code reaches that panel's parsed threshold. -/
lemma addToIndex_century_step {p : Pub} {today : Str} {d d' : IndexDoc}
    (h : addToIndex p today d = some d') :
    d'.centuryPanels.map (fun q => (q.century, q.firstEp)) =
      d.centuryPanels.map (fun q => (q.century, q.firstEp)) ∧
    (d'.currCentury = d.currCentury ∨
      (p.type = PubType.podcast ∧
       ∃ n np f, epNumericVal p.episode = some n ∧
         nextCPanel d.centuryPanels d.currCentury = some np ∧
         pyIntNat np.firstEp = some f ∧ f ≤ n ∧ d'.currCentury = np.century)) := by
  unfold addToIndex at h
  split at h
  · injection h with h'
    subst h'
    exact ⟨rfl, Or.inl rfl⟩
  · cases har : addRow p d with
    | none => rw [har] at h; cases h
    | some d0 =>
      rw [har] at h
      injection h with h'
      subst h'
      unfold addRow at har
      split at har
      · -- special episode: series panels only
        cases hs : p.series with
        | none => simp [hs] at har
        | some ser =>
          simp only [hs] at har
          split at har <;>
            (injection har with h0; subst h0; exact ⟨rfl, Or.inl rfl⟩)
      · -- news or podcast
        cases hct : centuryTarget p d with
        | none => rw [hct] at har; cases har
        | some c =>
          rw [hct] at har
          injection har with h0
          subst h0
          refine ⟨appendCentury_sig _ _ _, ?_⟩
          unfold centuryTarget at hct
          split at hct
          case isTrue hpod =>
            cases hev : epNumericVal p.episode with
            | none => simp only [hev] at hct; injection hct with h1; exact Or.inl h1.symm
            | some n =>
              simp only [hev] at hct
              cases hnp : nextCPanel d.centuryPanels d.currCentury with
              | none => simp only [hnp] at hct; injection hct with h1; exact Or.inl h1.symm
              | some np =>
                simp only [hnp] at hct
                cases hpi : pyIntNat np.firstEp with
                | none => simp only [hpi] at hct; cases hct
                | some f =>
                  simp only [hpi] at hct
                  split at hct
                  case isTrue hle =>
                    injection hct with h1
                    exact Or.inr ⟨hpod, n, np, f, rfl, rfl, hpi, hle, h1.symm⟩
                  case isFalse =>
                    injection hct with h1
                    exact Or.inl h1.symm
          case isFalse =>
            injection hct with h1
            exact Or.inl h1.symm

/-- A merge succeeds whenever a special record carries a series and every
century panel's threshold parses. -/
lemma addToIndex_isSome_of_wf (p : Pub) (today : Str) (d : IndexDoc)
    (hser : p.type = PubType.special → p.series ≠ none)
    (hfe : ∀ cp ∈ d.centuryPanels, (pyIntNat cp.firstEp).isSome = true) :
    ∃ d', addToIndex p today d = some d' := by
  unfold addToIndex
  split
  · exact ⟨_, rfl⟩
  · suffices hs : ∃ d0, addRow p d = some d0 by
      obtain ⟨d0, hd0⟩ := hs
      exact ⟨_, by rw [hd0]; rfl⟩
    unfold addRow
    split
    case isTrue hsp =>
      cases hserval : p.series with
      | none => exact absurd hserval (hser hsp)
      | some ser =>
        by_cases ht : p.title = jcTitle
        · exact ⟨{ d with seriesPanels := appendSeries d.seriesPanels ser (jcRows p) },
            by simp [ht]⟩
        · exact ⟨{ d with seriesPanels := appendSeries d.seriesPanels ser [mkRow p] },
            by simp [ht]⟩
    case isFalse =>
      suffices hc : ∃ c, centuryTarget p d = some c by
        obtain ⟨c, hc⟩ := hc
        rw [hc]
        exact ⟨_, rfl⟩
      unfold centuryTarget
      split
      · cases hev : epNumericVal p.episode with
        | none => exact ⟨_, rfl⟩
        | some n =>
          cases hnp : nextCPanel d.centuryPanels d.currCentury with
          | none => exact ⟨_, rfl⟩
          | some np =>
            have hfei := hfe np (nextCPanel_mem hnp)
            cases hpi : pyIntNat np.firstEp with
            | none => rw [hpi] at hfei; simp at hfei
            | some f =>
              by_cases hle : f ≤ n
              · exact ⟨np.century, by simp [hpi, hle]⟩
              · exact ⟨d.currCentury, by simp [hpi, hle]⟩
      · exact ⟨_, rfl⟩

/-- The unconditional final state update: every successful merge ends in
`stateUpd`. -/
lemma addToIndex_state (p : Pub) (today : Str) {d d' : IndexDoc}
    (h : addToIndex p today d = some d') :
    d'.currPub = p.url ∧
    d'.currIndexDate = (match p.next with
                        | some _ => p.pubDate.take 10
                        | none => today) := by
  unfold addToIndex at h
  split at h
  · injection h with h'
    subst h'
    exact ⟨rfl, rfl⟩
  · cases har : addRow p d with
    | none => rw [har] at h; cases h
    | some d0 =>
      rw [har] at h
      injection h with h'
      subst h'
      exact ⟨rfl, rfl⟩

/-- Claim C7: after every merge, skipped or not, the current-publication
marker is the record's URL, and the index date is the record's published
date truncated to a calendar date when the record has a next pointer, or
today's wall-clock date when it does not. -/
theorem addToIndex_state_update (p : Pub) (today : Str) (d d' : IndexDoc)
    (h : addToIndex p today d = some d') :
    d'.currPub = p.url ∧
    d'.currIndexDate = (match p.next with
                        | some _ => p.pubDate.take 10
                        | none => today) :=
  addToIndex_state p today h

/-- A concrete record with no next pointer, used by witnesses. -/
def pubW : Pub :=
  ⟨"u".data, PubType.news, none, "t".data, "T".data, [], none, [],
   "2020-01-02T03:04".data⟩

/-- A concrete record with a next pointer, used by witnesses. -/
def pubN1 : Pub :=
  ⟨"u1".data, PubType.news, some "u2".data, "t".data, "T".data, [], none, [],
   "2020-01-02T03:04".data⟩

/-- A concrete index document with two century panels, used by witnesses. -/
def docW : IndexDoc :=
  ⟨[], "c5".data,
   [⟨"c5".data, "1".data, []⟩, ⟨"c6".data, "100".data, []⟩],
   [("stories".data, []), ("rewards".data, [])], [], [], []⟩

/-- Witness for C7: merging a chain-end record into `docW` records its URL
and today's date. -/
theorem addToIndex_state_update_witness :
    ∃ d', addToIndex pubW "2026-10-12".data docW = some d' ∧
      d'.currPub = pubW.url ∧ d'.currIndexDate = "2026-10-12".data := by
  obtain ⟨d', hd⟩ : ∃ d', addToIndex pubW "2026-10-12".data docW = some d' := ⟨_, rfl⟩
  obtain ⟨h1, h2⟩ := addToIndex_state_update pubW "2026-10-12".data docW d' hd
  exact ⟨d', hd, h1, by rw [h2]; rfl⟩

/-- Claim C3: merging a record whose URL has a skip marker (`pendingSkip` is
a set, so the marker is unique) appends no row to any century, series or
"all" panel, consumes exactly that one marker — leaving every other URL's
markers untouched — and still performs the final state update. -/
theorem addToIndex_skip_consumes (p : Pub) (today : Str) (d : IndexDoc)
    (hcount : d.pendingSkip.count p.url = 1) :
    ∃ d', addToIndex p today d = some d' ∧
      d'.centuryPanels = d.centuryPanels ∧
      d'.seriesPanels = d.seriesPanels ∧
      d'.allRows = d.allRows ∧
      d'.pendingSkip.count p.url + 1 = d.pendingSkip.count p.url ∧
      (∀ u, u ≠ p.url → d'.pendingSkip.count u = d.pendingSkip.count u) ∧
      d'.currPub = p.url ∧
      d'.currIndexDate = (match p.next with
                          | some _ => p.pubDate.take 10
                          | none => today) := by
  have hmem : p.url ∈ d.pendingSkip := List.count_pos_iff.mp (by omega)
  refine ⟨stateUpd p today { d with pendingSkip := d.pendingSkip.filter (· ≠ p.url) },
    by unfold addToIndex; rw [if_pos hmem], rfl, rfl, rfl, ?_, ?_, rfl, rfl⟩
  · have hz : (d.pendingSkip.filter (· ≠ p.url)).count p.url = 0 := by
      rw [List.count_eq_zero]
      intro hin
      have := (List.mem_filter.mp hin).2
      simp at this
    show (d.pendingSkip.filter (· ≠ p.url)).count p.url + 1 = _
    omega
  · intro u hu
    show (d.pendingSkip.filter (· ≠ p.url)).count u = _
    exact List.count_filter (by simpa using hu)

/-- A concrete document whose skip list contains `pubW`'s URL once. -/
def docSkip : IndexDoc :=
  ⟨["u".data], "c5".data,
   [⟨"c5".data, "1".data, []⟩, ⟨"c6".data, "100".data, []⟩],
   [("stories".data, []), ("rewards".data, [])], [], [], []⟩

/-- Witness for C3 at `pubW` and `docSkip`. -/
theorem addToIndex_skip_consumes_witness :
    ∃ d', addToIndex pubW "2026-10-12".data docSkip = some d' ∧
      d'.centuryPanels = docSkip.centuryPanels ∧
      d'.seriesPanels = docSkip.seriesPanels ∧
      d'.allRows = docSkip.allRows ∧
      d'.pendingSkip.count pubW.url + 1 = docSkip.pendingSkip.count pubW.url ∧
      (∀ u, u ≠ pubW.url → d'.pendingSkip.count u = docSkip.pendingSkip.count u) ∧
      d'.currPub = pubW.url ∧
      d'.currIndexDate = (match pubW.next with
                          | some _ => pubW.pubDate.take 10
                          | none => "2026-10-12".data) :=
  addToIndex_skip_consumes pubW "2026-10-12".data docSkip (by decide)

/-- Claim C4: over any sequence of merges in a run, the century panels and
their order are unchanged and the position of `currCentury` among them never
decreases — the current century only ever moves forward to panels of
non-decreasing threshold order, never reverting to an earlier panel (the
single-step advancement happens exactly for a podcast record with
pure-numeric code reaching the next panel's threshold,
`addToIndex_century_step`). -/
theorem century_monotone (ps : List Pub) (today : Str) (d d' : IndexDoc)
    (hnd : (d.centuryPanels.map (fun q => q.century)).Nodup)
    (h : mergeSeq ps today d = some d') :
    d'.centuryPanels.map (fun q => q.century) =
      d.centuryPanels.map (fun q => q.century) ∧
    idxOfStr d.currCentury (d.centuryPanels.map (fun q => q.century)) ≤
      idxOfStr d'.currCentury (d'.centuryPanels.map (fun q => q.century)) := by
  induction ps generalizing d with
  | nil =>
    simp only [mergeSeq] at h
    injection h with h'
    subst h'
    exact ⟨rfl, le_refl _⟩
  | cons p ps ih =>
    simp only [mergeSeq] at h
    cases ha : addToIndex p today d with
    | none => rw [ha] at h; cases h
    | some d1 =>
      rw [ha] at h
      obtain ⟨hsig, hcc⟩ := addToIndex_century_step ha
      have hids : d1.centuryPanels.map (fun q => q.century)
          = d.centuryPanels.map (fun q => q.century) := by
        have h2 := congrArg (List.map Prod.fst) hsig
        simpa [List.map_map] using h2
      have hnd1 : (d1.centuryPanels.map (fun q => q.century)).Nodup := by
        rw [hids]; exact hnd
      obtain ⟨hids2, hle2⟩ := ih d1 hnd1 h
      refine ⟨by rw [hids2, hids], ?_⟩
      have hstep : idxOfStr d.currCentury (d.centuryPanels.map (fun q => q.century)) ≤
          idxOfStr d1.currCentury (d1.centuryPanels.map (fun q => q.century)) := by
        rcases hcc with he | ⟨_, n, np, f, _, hnp, _, _, hcs⟩
        · rw [he, hids]
        · rw [hcs, hids, nextCPanel_idx hnd hnp]
          omega
      exact le_trans hstep hle2

/-- Witness for C4: one merge into `docW`. -/
theorem century_monotone_witness :
    ∃ d', mergeSeq [pubW] "2026-10-12".data docW = some d' ∧
      d'.centuryPanels.map (fun q => q.century) =
        docW.centuryPanels.map (fun q => q.century) ∧
      idxOfStr docW.currCentury (docW.centuryPanels.map (fun q => q.century)) ≤
        idxOfStr d'.currCentury (d'.centuryPanels.map (fun q => q.century)) := by
  obtain ⟨d', hd⟩ : ∃ d', mergeSeq [pubW] "2026-10-12".data docW = some d' := ⟨_, rfl⟩
  obtain ⟨h1, h2⟩ := century_monotone [pubW] "2026-10-12".data docW d' (by decide) hd
  exact ⟨d', hd, h1, h2⟩

/-- Claim C5, counterexample: merge can raise.  A special-type record whose
series is absent reaches `self.series.title()` at line 208 with
`series = None`, an `AttributeError` (modelled by `none`). -/
theorem merge_raises_counterexample :
    addToIndex ⟨"u".data, PubType.special, none, "t".data, "x".data, "1".data,
        none, [], []⟩ "2026-10-12".data docW = none := by
  rfl

/-- Claim C5 as amended: merge completes normally — anomalies only logged —
and always finishes the state update, provided the record and document are
well-formed: a special-type record carries a series, and every century
panel's `data-first-ep` parses as an integer.  (Without those provisos the
code can raise: see the counterexample.) -/
theorem merge_total (p : Pub) (today : Str) (d : IndexDoc)
    (hser : p.type = PubType.special → p.series ≠ none)
    (hfe : ∀ cp ∈ d.centuryPanels, (pyIntNat cp.firstEp).isSome = true) :
    ∃ d', addToIndex p today d = some d' ∧ d'.currPub = p.url ∧
      d'.currIndexDate = (match p.next with
                          | some _ => p.pubDate.take 10
                          | none => today) := by
  obtain ⟨d', hd⟩ := addToIndex_isSome_of_wf p today d hser hfe
  obtain ⟨h1, h2⟩ := addToIndex_state p today hd
  exact ⟨d', hd, h1, h2⟩

/-- A concrete well-formed special record, used by witnesses. -/
def pubSpec : Pub :=
  ⟨"u3".data, PubType.special, none, "t".data, "S".data, "7".data,
   some "rewards".data, [], "2020-01-02T03:04".data⟩

/-- Witness for the amended C5 at `pubSpec` and `docW`. -/
theorem merge_total_witness :
    ∃ d', addToIndex pubSpec "2026-10-12".data docW = some d' ∧
      d'.currPub = pubSpec.url ∧
      d'.currIndexDate = (match pubSpec.next with
                          | some _ => pubSpec.pubDate.take 10
                          | none => "2026-10-12".data) :=
  merge_total pubSpec "2026-10-12".data docW (by decide) (by decide)

lemma mainLoop_capped (m : Nat) (today : Str) :
    ∀ (chain : List Pub) (d : IndexDoc) (n : Nat),
      (∀ p ∈ chain, p.next.isSome = true) →
      (∀ p ∈ chain, p.type = PubType.special → p.series ≠ none) →
      (∀ cp ∈ d.centuryPanels, (pyIntNat cp.firstEp).isSome = true) →
      n ≤ m → m + 1 ≤ n + chain.length →
      ∃ d', mainLoop (some m) today chain d n = some (d', m + 1) := by
  intro chain
  induction chain with
  | nil =>
    intro d n h1 h2 h3 hnm hlen
    simp at hlen
    omega
  | cons p rest ih =>
    intro d n h1 h2 h3 hnm hlen
    obtain ⟨d1, hd1⟩ := addToIndex_isSome_of_wf p today d
      (h2 p (List.mem_cons_self _ _)) h3
    have hnext : p.next.isSome = true := h1 p (List.mem_cons_self _ _)
    have h3' := firstEp_wf_preserved (addToIndex_century_step hd1).1 h3
    by_cases hcm : n + 1 ≤ m
    · have hcond : (decide (n + 1 ≤ m) && p.next.isSome) = true := by
        simp [hcm, hnext]
      obtain ⟨d', hd'⟩ := ih d1 (n + 1)
        (fun x hx => h1 x (List.mem_cons_of_mem _ hx))
        (fun x hx => h2 x (List.mem_cons_of_mem _ hx))
        h3' hcm (by simp at hlen ⊢; omega)
      refine ⟨d', ?_⟩
      simp only [mainLoop, hd1, hcond, if_true]
      exact hd'
    · have hcond : (decide (n + 1 ≤ m) && p.next.isSome) = false := by
        simp [hcm]
      refine ⟨d1, ?_⟩
      simp only [mainLoop, hd1, hcond, Bool.false_eq_true, if_false]
      rw [show n + 1 = m + 1 from by omega]

lemma mainLoop_uncapped (today : Str) (q : Pub) (hq : q.next = none) :
    ∀ (qs : List Pub) (d : IndexDoc) (n : Nat),
      (∀ p ∈ qs, p.next.isSome = true) →
      (∀ p ∈ qs ++ [q], p.type = PubType.special → p.series ≠ none) →
      (∀ cp ∈ d.centuryPanels, (pyIntNat cp.firstEp).isSome = true) →
      ∃ d', mainLoop none today (qs ++ [q]) d n = some (d', n + qs.length + 1) := by
  intro qs
  induction qs with
  | nil =>
    intro d n h1 h2 h3
    obtain ⟨d1, hd1⟩ := addToIndex_isSome_of_wf q today d (h2 q (by simp)) h3
    refine ⟨d1, ?_⟩
    simp [mainLoop, hd1, hq]
  | cons p rest ih =>
    intro d n h1 h2 h3
    obtain ⟨d1, hd1⟩ := addToIndex_isSome_of_wf p today d (h2 p (by simp)) h3
    have hnext : p.next.isSome = true := h1 p (List.mem_cons_self _ _)
    have h3' := firstEp_wf_preserved (addToIndex_century_step hd1).1 h3
    obtain ⟨d', hd'⟩ := ih d1 (n + 1)
      (fun x hx => h1 x (List.mem_cons_of_mem _ hx))
      (fun x hx => h2 x (by simp at hx ⊢; tauto))
      h3'
    refine ⟨d', ?_⟩
    simp only [List.cons_append, mainLoop, hd1, hnext, Bool.and_true, if_true]
    rw [show n + 1 + rest.length + 1 = n + (rest.length + 1) + 1 from by omega] at hd'
    simpa using hd'

/-- Claim C6: the walker's loop continues while the processed counter is
`≤ maxCount`.  With `maxCount = m` set and a chain of at least `m + 1`
records each having a next pointer, it fetches and merges exactly `m + 1`
publications before halting — one extra beyond the cap.  With `maxCount`
unset it continues until a record has no next pointer, merging the whole
chain.  (Record/document well-formedness as in the amended C5 so that every
merge completes.) -/
theorem walker_count :
    (∀ (m : Nat) (today : Str) (chain : List Pub) (d : IndexDoc),
      (∀ p ∈ chain, p.next.isSome = true) →
      (∀ p ∈ chain, p.type = PubType.special → p.series ≠ none) →
      (∀ cp ∈ d.centuryPanels, (pyIntNat cp.firstEp).isSome = true) →
      m + 1 ≤ chain.length →
      ∃ d', mainLoop (some m) today chain d 0 = some (d', m + 1)) ∧
    (∀ (today : Str) (qs : List Pub) (q : Pub) (d : IndexDoc),
      q.next = none →
      (∀ p ∈ qs, p.next.isSome = true) →
      (∀ p ∈ qs ++ [q], p.type = PubType.special → p.series ≠ none) →
      (∀ cp ∈ d.centuryPanels, (pyIntNat cp.firstEp).isSome = true) →
      ∃ d', mainLoop none today (qs ++ [q]) d 0 = some (d', qs.length + 1)) := by
  constructor
  · intro m today chain d h1 h2 h3 hlen
    exact mainLoop_capped m today chain d 0 h1 h2 h3 (Nat.zero_le m) (by omega)
  · intro today qs q d hq h1 h2 h3
    have hml := mainLoop_uncapped today q hq qs d 0 h1 h2 h3
    simpa using hml

/-- Witness for C6: a cap of 1 on a 2-chain gives 2 fetches; no cap on a
2-chain ending without a next pointer merges both. -/
theorem walker_count_witness :
    (∃ d', mainLoop (some 1) "2026-10-12".data [pubN1, pubN1] docW 0 = some (d', 2)) ∧
    (∃ d', mainLoop none "2026-10-12".data ([pubN1] ++ [pubW]) docW 0 = some (d', 2)) := by
  constructor
  · exact walker_count.1 1 "2026-10-12".data [pubN1, pubN1] docW
      (by decide) (by decide) (by decide) (by decide)
  · exact walker_count.2 "2026-10-12".data [pubN1] pubW docW
      (by decide) (by decide) (by decide) (by decide)

end Makeindex
